import Mathlib

/-!
Verification of the voucher transformation pipeline of the tally_export
repository, a shallow embedding of src/src/export.rs (export_data and its
helpers) and src/ledger/export_ledger.rs (get_account_type).

Modelling conventions:
  - Rust f64 amounts are modelled as Int (the decision logic only compares,
    negates and takes absolute values, never divides).
  - Rust panics (panic! in get_voucher_type / get_account_type, .unwrap()
    on an account lookup miss or on .first() of an empty vector) are
    modelled as values of ExportError, so partiality is explicit.
  - Vec push and in-place mutation become explicit state passing: the
    per-leg loop body of export_data is the function applyUpdates, and the
    loop itself is buildLegsFrom.
  - Vec sort_by with the comparator cmp_f64(&b.amount, &a.amount) is a
    stable descending sort by amount; sortEntriesDesc is a stable
    insertion sort producing the same list.
-/

namespace TallyExport

/-- One row of an alias table (struct NameMap in export.rs). -/
structure NameMap where
  auditplus : String
  tally : String
deriving DecidableEq, Repr

/-- One document of the accounts directory as projected by export_data
(fields id and name). -/
structure Account where
  id : String
  name : String
deriving DecidableEq, Repr

/-- One transaction leg (struct Transaction in export.rs). -/
structure Transaction where
  account : String
  amount : Int
  accountType : String
deriving DecidableEq, Repr

/-- One raw input voucher (struct AGVoucher in export.rs). -/
structure AGVoucher where
  date : String
  billDate : Option String
  refNo : Option String
  narration : Option String
  voucherType : String
  voucherNo : Option String
  trns : List Transaction
  lut : Option Bool
  rcm : Option Bool
deriving DecidableEq, Repr

/-- One output ledger entry (struct LedgerEntry in export.rs); the
is_deemed_positive flag is the literal string Yes or No exactly as in the
source. -/
structure LedgerEntry where
  ledger_name : String
  is_deemed_positive : String
  amount : Int
deriving DecidableEq, Repr

/-- One output voucher (struct Voucher in export.rs). -/
structure Voucher where
  date : String
  ref_no : Option String
  ref_date : Option String
  voucher_type : String
  party_ledger : String
  voucher_no : Option String
  ledger_entries : List LedgerEntry
deriving DecidableEq, Repr

/-- The failure modes of the pipeline.  UnknownVoucherType and
UnknownAccountType model the two panic! calls of the classifiers;
UnknownAccount models the .unwrap() on a failed accounts lookup;
NoFirstEntry and NoPartyCandidate model the .unwrap() on .first() of an
empty entry list (Journal rule) and of an empty candidate list
(Sales-family rule) respectively. -/
inductive ExportError where
  | UnknownVoucherType
  | UnknownAccountType
  | UnknownAccount
  | NoFirstEntry
  | NoPartyCandidate
deriving DecidableEq, Repr

/-- LedgerEntry::new of export.rs: the flag is Yes exactly when the amount
is strictly negative, name and amount are stored unchanged. -/
def LedgerEntry.new (ledger_name : String) (amount : Int) : LedgerEntry :=
  { ledger_name
    is_deemed_positive := if amount < 0 then "Yes" else "No"
    amount }

/-- Alias resolution as performed inline in export.rs (find on auditplus,
take tally, else the input unchanged; first match wins). -/
def resolveName (m : List NameMap) (x : String) : String :=
  match m.find? (fun r => r.auditplus == x) with
  | some r => r.tally
  | none => x

/-- The closed code-to-canonical-name table of get_voucher_type
(export.rs lines 183-193); none models the panic! arm. -/
def canonicalVoucherType (code : String) : Option String :=
  match code with
  | "SALE" => some "Sales"
  | "CREDIT_NOTE" => some "Credit Note"
  | "PURCHASE" => some "Purchase"
  | "DEBIT_NOTE" => some "Debit Note"
  | "PAYMENT" => some "Payment"
  | "RECEIPT" => some "Receipt"
  | "JOURNAL" => some "Journal"
  | "CONTRA" => some "Contra"
  | _ => none

/-- get_voucher_type of export.rs: canonical name, then alias table. -/
def getVoucherType (code : String) (m : List NameMap) : Except ExportError String :=
  match canonicalVoucherType code with
  | some v => .ok (resolveName m v)
  | none => .error .UnknownVoucherType

/-- The closed code-to-canonical-name table of get_account_type
(export_ledger.rs lines 119-147); none models the panic! arm.  The three
repeated target names (GST_PAYABLE, GST_RECEIVABLE, EFT_ACCOUNT) are
copied from the source as written. -/
def canonicalAccountType (code : String) : Option String :=
  match code with
  | "DIRECT_INCOME" => some "Direct Income"
  | "INDIRECT_INCOME" => some "Indirect Income"
  | "SALE" => some "Sale"
  | "DIRECT_EXPENSE" => some "Direct Expense"
  | "INDIRECT_EXPENSE" => some "Indirect Expense"
  | "PURCHASE" => some "Purchase"
  | "FIXED_ASSET" => some "Fixed Asset"
  | "CURRENT_ASSET" => some "Current Asset"
  | "LONGTERM_LIABILITY" => some "LongTerm Liability"
  | "CURRENT_LIABILITY" => some "Current Liability"
  | "EQUITY" => some "Equity"
  | "CASH" => some "Cash"
  | "STOCK" => some "Stock"
  | "UNDEPOSITED_FUNDS" => some "Undeposited Funds"
  | "BANK_ACCOUNT" => some "Bank Account"
  | "BANK_OD_ACCOUNT" => some "Bank OD Account"
  | "GST_PAYABLE" => some "Direct Income"
  | "GST_RECEIVABLE" => some "Indirect Income"
  | "EFT_ACCOUNT" => some "Sale"
  | "PAYABLE" => some "Payable"
  | "RECEIVABLE" => some "Receivable"
  | "ACCOUNT_PAYABLE" => some "Account Payable"
  | "ACCOUNT_RECEIVABLE" => some "Account Receivable"
  | "TRADE_PAYABLE" => some "Trade Payable"
  | "TRADE_RECEIVABLE" => some "Trade Receivable"
  | "BRANCH_TRANSFER" => some "Branch Transfer"
  | _ => none

/-- get_account_type of export_ledger.rs: canonical name, then alias
table. -/
def getAccountType (code : String) (m : List NameMap) : Except ExportError String :=
  match canonicalAccountType code with
  | some v => .ok (resolveName m v)
  | none => .error .UnknownAccountType

/-- The account type codes that qualify a leg as a party candidate
(export.rs lines 515-524). -/
def partyAccountTypes : List String :=
  ["TRADE_RECEIVABLE", "TRADE_PAYABLE", "ACCOUNT_RECEIVABLE",
   "ACCOUNT_PAYABLE", "CASH", "BANK_ACCOUNT", "BANK_OD_ACCOUNT",
   "EFT_ACCOUNT"]

/-- The resolved voucher type names that trigger the aggregate party rule
(export.rs line 535). -/
def salesTypes : List String :=
  ["Sales", "Purchase", "Credit Note", "Debit Note"]

/-- All resolved voucher type names that trigger any party rule or the
keep-leg-order exception. -/
def ruleNames : List String :=
  ["Contra", "Receipt", "Payment", "Journal", "Sales", "Purchase",
   "Credit Note", "Debit Note"]

/-- Error-propagating map over a list, stopping at the first error; this
is how the source loops behave, since any panic aborts the iteration. -/
def mapME (f : α → Except ExportError β) : List α → Except ExportError (List β)
  | [] => .ok []
  | x :: xs =>
    match f x with
    | .error e => .error e
    | .ok y =>
      match mapME f xs with
      | .error e => .error e
      | .ok ys => .ok (y :: ys)

/-- Resolution of one leg into a ledger entry (export.rs lines 494-507):
directory lookup by account id (.unwrap() on a miss modelled as
UnknownAccount), account alias resolution, then LedgerEntry::new. -/
def resolveLeg (accounts : List Account) (am : List NameMap) (t : Transaction) :
    Except ExportError LedgerEntry :=
  match accounts.find? (fun a => a.id == t.account) with
  | none => .error .UnknownAccount
  | some acc => .ok (LedgerEntry.new (resolveName am acc.name) t.amount)

/-- The three mutable accumulators of the per-leg loop of export_data. -/
structure LegState where
  partyLedgerName : String
  ledgerEntries : List LedgerEntry
  partyLedgers : List LedgerEntry
deriving DecidableEq, Repr

/-- The body of the per-leg loop of export_data (lines 508-530) after the
leg has been resolved to a ledger entry: push the entry, then the
Contra/Receipt rule, then the Payment rule, then the candidate push with
the absolute amount. -/
def applyUpdates (n : String) (st : LegState) (t : Transaction) (l : LedgerEntry) :
    LegState :=
  let s1 : LegState := { st with ledgerEntries := st.ledgerEntries ++ [l] }
  let s2 : LegState :=
    if (n = "Contra" ∨ n = "Receipt") ∧ 0 < t.amount then
      { s1 with partyLedgerName := l.ledger_name }
    else s1
  let s3 : LegState :=
    if n = "Payment" ∧ t.amount < 0 then
      { s2 with partyLedgerName := l.ledger_name }
    else s2
  if t.accountType ∈ partyAccountTypes then
    { s3 with partyLedgers := s3.partyLedgers ++ [{ l with amount := |l.amount| }] }
  else s3

/-- The per-leg loop of export_data (lines 493-531), threading the three
accumulators; a failed account lookup aborts it like the panic does. -/
def buildLegsFrom (accounts : List Account) (am : List NameMap) (n : String) :
    LegState → List Transaction → Except ExportError LegState
  | st, [] => .ok st
  | st, t :: ts =>
    match resolveLeg accounts am t with
    | .error e => .error e
    | .ok l => buildLegsFrom accounts am n (applyUpdates n st t l) ts

/-- Stable descending insertion of an entry: it is placed before the first
element whose amount is less than or equal to its own, so that among equal
amounts the earlier original element stays first. -/
def insertEntryDesc (e : LedgerEntry) : List LedgerEntry → List LedgerEntry
  | [] => [e]
  | y :: ys => if e.amount < y.amount then y :: insertEntryDesc e ys else e :: y :: ys

/-- The stable descending sort by amount performed by
sort_by(cmp_f64(&b.amount, &a.amount)) in export.rs; Vec::sort_by is a
stable sort, and a stable sort under a fixed comparator has a unique
result, reproduced here by stable insertion. -/
def sortEntriesDesc : List LedgerEntry → List LedgerEntry
  | [] => []
  | x :: xs => insertEntryDesc x (sortEntriesDesc xs)

/-- The first entry of a list attaining the maximal amount (ties resolved
to the earliest); this characterises the head of the stable descending
sort. -/
def firstMaxEntry : List LedgerEntry → Option LedgerEntry
  | [] => none
  | x :: xs =>
    match firstMaxEntry xs with
    | none => some x
    | some y => if x.amount < y.amount then some y else some x

/-- The party candidate list as the spec describes it: the legs whose
account type code is in partyAccountTypes, each resolved to its ledger
entry with the amount replaced by its absolute value. -/
def candidatesOf (accounts : List Account) (am : List NameMap)
    (ts : List Transaction) : Except ExportError (List LedgerEntry) :=
  mapME
    (fun t =>
      match resolveLeg accounts am t with
      | .error e => .error e
      | .ok l => .ok { l with amount := |l.amount| })
    (ts.filter (fun t => decide (t.accountType ∈ partyAccountTypes)))

/-- The Journal party rule of export_data (lines 532-534): when the
resolved type name is Journal, take the ledger name of the first entry in
leg order; the .unwrap() on an empty list is the NoFirstEntry error. -/
def journalParty (n : String) (st : LegState) : Except ExportError String :=
  if n = "Journal" then
    match st.ledgerEntries.head? with
    | some e => .ok e.ledger_name
    | none => .error ExportError.NoFirstEntry
  else .ok st.partyLedgerName

/-- The aggregate Sales-family party rule of export_data (lines 535-541):
stable descending sort of the candidate list by (absolute) amount, then
the first candidate; the .unwrap() on an empty list is the
NoPartyCandidate error. -/
def salesParty (n : String) (st : LegState) (p2 : String) :
    Except ExportError String :=
  if n ∈ salesTypes then
    match (sortEntriesDesc st.partyLedgers).head? with
    | some e => .ok e.ledger_name
    | none => .error ExportError.NoPartyCandidate
  else .ok p2

/-- Assembly of the output voucher after the per-leg loop (export.rs lines
532-553): Journal rule, Sales-family rule, then the display sort applied
to every type except Journal. -/
def finishVoucher (v : AGVoucher) (n : String) (st : LegState) :
    Except ExportError Voucher :=
  match journalParty n st with
  | .error e => .error e
  | .ok p2 =>
    match salesParty n st p2 with
    | .error e => .error e
    | .ok p3 =>
      .ok { date := v.date
            ref_no := v.refNo
            ref_date := v.billDate
            voucher_type := n
            party_ledger := p3
            voucher_no := v.voucherNo
            ledger_entries :=
              if n ≠ "Journal" then sortEntriesDesc st.ledgerEntries
              else st.ledgerEntries }

/-- The transformation of one raw voucher (export.rs lines 483-553):
classify the voucher type, run the per-leg loop, apply the Journal rule,
then the aggregate Sales-family rule, then sort the entries unless the
resolved type is Journal. -/
def processVoucher (accounts : List Account) (am vm : List NameMap)
    (v : AGVoucher) : Except ExportError Voucher :=
  match getVoucherType v.voucherType vm with
  | .error e => .error e
  | .ok n =>
    match buildLegsFrom accounts am n ⟨"", [], []⟩ v.trns with
    | .error e => .error e
    | .ok st => finishVoucher v n st

/-- The voucher loop of export_data: each voucher is transformed in turn
and any failure aborts the whole run, exactly as a panic aborts the Rust
for loop. -/
def exportRun (accounts : List Account) (am vm : List NameMap)
    (vs : List AGVoucher) : Except ExportError (List Voucher) :=
  mapME (processVoucher accounts am vm) vs

section StateLemmas

variable {A : List Account} {am vm : List NameMap} {n : String}
variable {st st' : LegState} {t : Transaction} {l : LedgerEntry}

lemma applyUpdates_ledgerEntries (n : String) (st : LegState)
    (t : Transaction) (l : LedgerEntry) :
    (applyUpdates n st t l).ledgerEntries = st.ledgerEntries ++ [l] := by
  simp only [applyUpdates]
  split_ifs <;> rfl

lemma applyUpdates_partyLedgers (n : String) (st : LegState)
    (t : Transaction) (l : LedgerEntry) :
    (applyUpdates n st t l).partyLedgers =
      if t.accountType ∈ partyAccountTypes then
        st.partyLedgers ++ [{ l with amount := |l.amount| }]
      else st.partyLedgers := by
  simp only [applyUpdates]
  split_ifs <;> rfl

lemma applyUpdates_partyLedgerName_CR
    (h : n = "Contra" ∨ n = "Receipt") (st : LegState)
    (t : Transaction) (l : LedgerEntry) :
    (applyUpdates n st t l).partyLedgerName =
      if 0 < t.amount then l.ledger_name else st.partyLedgerName := by
  rcases h with h | h <;> subst h <;>
    simp only [applyUpdates] <;> split_ifs <;> simp_all

lemma applyUpdates_partyLedgerName_Payment (st : LegState)
    (t : Transaction) (l : LedgerEntry) :
    (applyUpdates "Payment" st t l).partyLedgerName =
      if t.amount < 0 then l.ledger_name else st.partyLedgerName := by
  simp only [applyUpdates]
  split_ifs <;> simp_all

lemma applyUpdates_partyLedgerName_other
    (h1 : ¬(n = "Contra" ∨ n = "Receipt")) (h2 : n ≠ "Payment")
    (st : LegState) (t : Transaction) (l : LedgerEntry) :
    (applyUpdates n st t l).partyLedgerName = st.partyLedgerName := by
  simp only [applyUpdates]
  split_ifs <;> simp_all

lemma applyUpdates_partyLedgerName_cases (n : String) (st : LegState)
    (t : Transaction) (l : LedgerEntry) :
    (applyUpdates n st t l).partyLedgerName = st.partyLedgerName ∨
      (applyUpdates n st t l).partyLedgerName = l.ledger_name := by
  simp only [applyUpdates]
  split_ifs <;> simp

end StateLemmas

section LoopLemmas

variable {A : List Account} {am vm : List NameMap} {n : String}

lemma buildLegsFrom_entries :
    ∀ (ts : List Transaction) (st st' : LegState),
      buildLegsFrom A am n st ts = .ok st' →
      ∃ es, mapME (resolveLeg A am) ts = .ok es ∧
        st'.ledgerEntries = st.ledgerEntries ++ es := by
  intro ts
  induction ts with
  | nil =>
    intro st st' h
    cases h
    exact ⟨[], rfl, by simp⟩
  | cons t ts ih =>
    intro st st' h
    rw [buildLegsFrom] at h
    cases hr : resolveLeg A am t with
    | error e => rw [hr] at h; cases h
    | ok l =>
      rw [hr] at h
      obtain ⟨es, hes, hent⟩ := ih _ _ h
      refine ⟨l :: es, ?_, ?_⟩
      · rw [mapME, hr, hes]
      · rw [hent, applyUpdates_ledgerEntries]
        simp

lemma buildLegsFrom_candidates :
    ∀ (ts : List Transaction) (st st' : LegState),
      buildLegsFrom A am n st ts = .ok st' →
      ∃ cs, candidatesOf A am ts = .ok cs ∧
        st'.partyLedgers = st.partyLedgers ++ cs := by
  intro ts
  induction ts with
  | nil =>
    intro st st' h
    cases h
    exact ⟨[], rfl, by simp⟩
  | cons t ts ih =>
    intro st st' h
    rw [buildLegsFrom] at h
    cases hr : resolveLeg A am t with
    | error e => rw [hr] at h; cases h
    | ok l =>
      rw [hr] at h
      obtain ⟨cs, hcs, hpl⟩ := ih _ _ h
      by_cases hmem : t.accountType ∈ partyAccountTypes
      · refine ⟨{ l with amount := |l.amount| } :: cs, ?_, ?_⟩
        · simp only [candidatesOf] at hcs ⊢
          simp [List.filter_cons, hmem, mapME, hr, hcs]
        · rw [hpl, applyUpdates_partyLedgers, if_pos hmem]
          simp
      · refine ⟨cs, ?_, ?_⟩
        · simp only [candidatesOf] at hcs ⊢
          simp [List.filter_cons, hmem, hcs]
        · rw [hpl, applyUpdates_partyLedgers, if_neg hmem]

lemma buildLegsFrom_party_mem :
    ∀ (ts : List Transaction) (st st' : LegState),
      buildLegsFrom A am n st ts = .ok st' →
      st'.partyLedgerName = st.partyLedgerName ∨
        ∃ e, e ∈ st'.ledgerEntries ∧ st'.partyLedgerName = e.ledger_name := by
  intro ts
  induction ts with
  | nil =>
    intro st st' h
    cases h
    exact .inl rfl
  | cons t ts ih =>
    intro st st' h
    rw [buildLegsFrom] at h
    cases hr : resolveLeg A am t with
    | error e => rw [hr] at h; cases h
    | ok l =>
      rw [hr] at h
      rcases ih _ _ h with hkeep | hmem
      · rcases applyUpdates_partyLedgerName_cases n st t l with hsame | hnew
        · exact .inl (hkeep.trans hsame)
        · refine .inr ⟨l, ?_, hkeep.trans hnew⟩
          obtain ⟨es, _, hent⟩ := buildLegsFrom_entries ts _ _ h
          rw [hent, applyUpdates_ledgerEntries]
          simp
      · exact .inr hmem

lemma buildLegsFrom_party_CR
    (hn : n = "Contra" ∨ n = "Receipt") :
    ∀ (ts : List Transaction) (st st' : LegState),
      buildLegsFrom A am n st ts = .ok st' →
      (ts.filter (fun t => decide (0 < t.amount)) = [] →
          st'.partyLedgerName = st.partyLedgerName) ∧
      (∀ t, (ts.filter (fun t => decide (0 < t.amount))).getLast? = some t →
          ∃ e, resolveLeg A am t = .ok e ∧ st'.partyLedgerName = e.ledger_name) := by
  intro ts
  induction ts with
  | nil =>
    intro st st' h
    cases h
    exact ⟨fun _ => rfl, fun t ht => by simp at ht⟩
  | cons t ts ih =>
    intro st st' h
    rw [buildLegsFrom] at h
    cases hr : resolveLeg A am t with
    | error e => rw [hr] at h; cases h
    | ok l =>
      rw [hr] at h
      have hupd := applyUpdates_partyLedgerName_CR hn st t l
      obtain ⟨ihnil, ihlast⟩ := ih _ _ h
      by_cases hq : 0 < t.amount
      · have hfc : (t :: ts).filter (fun t => decide (0 < t.amount)) =
            t :: ts.filter (fun t => decide (0 < t.amount)) := by
          simp [List.filter_cons, hq]
        constructor
        · intro hfil
          rw [hfc] at hfil
          exact (List.cons_ne_nil _ _ hfil).elim
        · intro t' ht'
          rw [hfc] at ht'
          cases hfil : ts.filter (fun t => decide (0 < t.amount)) with
          | nil =>
            rw [hfil] at ht'
            simp at ht'
            subst ht'
            refine ⟨l, hr, ?_⟩
            rw [ihnil hfil, hupd, if_pos hq]
          | cons a as =>
            rw [hfil, List.getLast?_cons_cons] at ht'
            exact ihlast t' (by rw [hfil]; exact ht')
      · have hfil : (t :: ts).filter (fun t => decide (0 < t.amount)) =
            ts.filter (fun t => decide (0 < t.amount)) := by
          simp [List.filter_cons, hq]
        constructor
        · intro hnil
          rw [hfil] at hnil
          rw [ihnil hnil, hupd, if_neg hq]
        · intro t' ht'
          rw [hfil] at ht'
          exact ihlast t' ht'

lemma buildLegsFrom_party_Payment :
    ∀ (ts : List Transaction) (st st' : LegState),
      buildLegsFrom A am "Payment" st ts = .ok st' →
      (ts.filter (fun t => decide (t.amount < 0)) = [] →
          st'.partyLedgerName = st.partyLedgerName) ∧
      (∀ t, (ts.filter (fun t => decide (t.amount < 0))).getLast? = some t →
          ∃ e, resolveLeg A am t = .ok e ∧ st'.partyLedgerName = e.ledger_name) := by
  intro ts
  induction ts with
  | nil =>
    intro st st' h
    cases h
    exact ⟨fun _ => rfl, fun t ht => by simp at ht⟩
  | cons t ts ih =>
    intro st st' h
    rw [buildLegsFrom] at h
    cases hr : resolveLeg A am t with
    | error e => rw [hr] at h; cases h
    | ok l =>
      rw [hr] at h
      have hupd := applyUpdates_partyLedgerName_Payment st t l
      obtain ⟨ihnil, ihlast⟩ := ih _ _ h
      by_cases hq : t.amount < 0
      · have hfc : (t :: ts).filter (fun t => decide (t.amount < 0)) =
            t :: ts.filter (fun t => decide (t.amount < 0)) := by
          simp [List.filter_cons, hq]
        constructor
        · intro hfil
          rw [hfc] at hfil
          exact (List.cons_ne_nil _ _ hfil).elim
        · intro t' ht'
          rw [hfc] at ht'
          cases hfil : ts.filter (fun t => decide (t.amount < 0)) with
          | nil =>
            rw [hfil] at ht'
            simp at ht'
            subst ht'
            refine ⟨l, hr, ?_⟩
            rw [ihnil hfil, hupd, if_pos hq]
          | cons a as =>
            rw [hfil, List.getLast?_cons_cons] at ht'
            exact ihlast t' (by rw [hfil]; exact ht')
      · have hfil : (t :: ts).filter (fun t => decide (t.amount < 0)) =
            ts.filter (fun t => decide (t.amount < 0)) := by
          simp [List.filter_cons, hq]
        constructor
        · intro hnil
          rw [hfil] at hnil
          rw [ihnil hnil, hupd, if_neg hq]
        · intro t' ht'
          rw [hfil] at ht'
          exact ihlast t' ht'

lemma buildLegsFrom_party_other
    (h1 : ¬(n = "Contra" ∨ n = "Receipt")) (h2 : n ≠ "Payment") :
    ∀ (ts : List Transaction) (st st' : LegState),
      buildLegsFrom A am n st ts = .ok st' →
      st'.partyLedgerName = st.partyLedgerName := by
  intro ts
  induction ts with
  | nil =>
    intro st st' h
    cases h
    rfl
  | cons t ts ih =>
    intro st st' h
    rw [buildLegsFrom] at h
    cases hr : resolveLeg A am t with
    | error e => rw [hr] at h; cases h
    | ok l =>
      rw [hr] at h
      rw [ih _ _ h, applyUpdates_partyLedgerName_other h1 h2]

end LoopLemmas

section SortLemmas

lemma mem_insertEntryDesc {x e : LedgerEntry} :
    ∀ {l : List LedgerEntry}, x ∈ insertEntryDesc e l ↔ x = e ∨ x ∈ l := by
  intro l
  induction l with
  | nil => simp [insertEntryDesc]
  | cons y ys ih =>
    rw [insertEntryDesc]
    split_ifs with h
    · simp only [List.mem_cons, ih]
      tauto
    · simp only [List.mem_cons]

lemma insertEntryDesc_ne_nil (e : LedgerEntry) (l : List LedgerEntry) :
    insertEntryDesc e l ≠ [] := by
  cases l with
  | nil => simp [insertEntryDesc]
  | cons y ys =>
    rw [insertEntryDesc]
    split_ifs <;> simp

lemma mem_sortEntriesDesc {x : LedgerEntry} :
    ∀ {l : List LedgerEntry}, x ∈ sortEntriesDesc l ↔ x ∈ l := by
  intro l
  induction l with
  | nil => simp [sortEntriesDesc]
  | cons y ys ih =>
    rw [sortEntriesDesc, mem_insertEntryDesc]
    simp [ih]

lemma sortEntriesDesc_eq_nil {l : List LedgerEntry} :
    sortEntriesDesc l = [] ↔ l = [] := by
  cases l with
  | nil => simp [sortEntriesDesc]
  | cons y ys =>
    rw [sortEntriesDesc]
    simp [insertEntryDesc_ne_nil]

lemma pairwise_insertEntryDesc {e : LedgerEntry} :
    ∀ {l : List LedgerEntry},
      l.Pairwise (fun a b => b.amount ≤ a.amount) →
      (insertEntryDesc e l).Pairwise (fun a b => b.amount ≤ a.amount) := by
  intro l
  induction l with
  | nil =>
    intro _
    simp [insertEntryDesc]
  | cons y ys ih =>
    intro hp
    rw [List.pairwise_cons] at hp
    obtain ⟨hy, hys⟩ := hp
    rw [insertEntryDesc]
    split_ifs with h
    · rw [List.pairwise_cons]
      refine ⟨?_, ih hys⟩
      intro z hz
      rcases mem_insertEntryDesc.mp hz with rfl | hz
      · exact le_of_lt h
      · exact hy z hz
    · push_neg at h
      rw [List.pairwise_cons]
      refine ⟨?_, by rw [List.pairwise_cons]; exact ⟨hy, hys⟩⟩
      intro z hz
      rcases List.mem_cons.mp hz with rfl | hz
      · exact h
      · exact le_trans (hy z hz) h

lemma pairwise_sortEntriesDesc (l : List LedgerEntry) :
    (sortEntriesDesc l).Pairwise (fun a b => b.amount ≤ a.amount) := by
  induction l with
  | nil => simp [sortEntriesDesc]
  | cons y ys ih => exact pairwise_insertEntryDesc ih

lemma filter_insertEntryDesc_pos {e : LedgerEntry} {a : Int} (h : e.amount = a) :
    ∀ (l : List LedgerEntry),
      (insertEntryDesc e l).filter (fun x => x.amount == a) =
        e :: l.filter (fun x => x.amount == a) := by
  intro l
  induction l with
  | nil => simp [insertEntryDesc, List.filter_cons, h]
  | cons y ys ih =>
    rw [insertEntryDesc]
    split_ifs with hlt
    · have hy : ¬(y.amount == a) = true := by
        simp only [beq_iff_eq]
        omega
      rw [List.filter_cons, if_neg hy, ih, List.filter_cons, if_neg hy]
    · rw [List.filter_cons, if_pos (by simp [h])]

lemma filter_insertEntryDesc_neg {e : LedgerEntry} {a : Int} (h : e.amount ≠ a) :
    ∀ (l : List LedgerEntry),
      (insertEntryDesc e l).filter (fun x => x.amount == a) =
        l.filter (fun x => x.amount == a) := by
  intro l
  induction l with
  | nil => simp [insertEntryDesc, List.filter_cons, h]
  | cons y ys ih =>
    rw [insertEntryDesc]
    split_ifs with hlt
    · rw [List.filter_cons, ih, List.filter_cons]
    · rw [List.filter_cons, if_neg (by simp [h]), List.filter_cons]

lemma filter_sortEntriesDesc (l : List LedgerEntry) (a : Int) :
    (sortEntriesDesc l).filter (fun x => x.amount == a) =
      l.filter (fun x => x.amount == a) := by
  induction l with
  | nil => simp [sortEntriesDesc]
  | cons y ys ih =>
    rw [sortEntriesDesc]
    by_cases h : y.amount = a
    · rw [filter_insertEntryDesc_pos h, ih, List.filter_cons, if_pos (by simp [h])]
    · rw [filter_insertEntryDesc_neg h, ih, List.filter_cons, if_neg (by simp [h])]

lemma head?_insertEntryDesc (e : LedgerEntry) (l : List LedgerEntry) :
    (insertEntryDesc e l).head? =
      some (match l.head? with
            | none => e
            | some y => if e.amount < y.amount then y else e) := by
  cases l with
  | nil => simp [insertEntryDesc]
  | cons y ys =>
    rw [insertEntryDesc]
    split_ifs with h <;> simp [h]

lemma head?_sortEntriesDesc (l : List LedgerEntry) :
    (sortEntriesDesc l).head? = firstMaxEntry l := by
  induction l with
  | nil => simp [sortEntriesDesc, firstMaxEntry]
  | cons x xs ih =>
    rw [sortEntriesDesc, head?_insertEntryDesc, firstMaxEntry, ← ih]
    cases hs : (sortEntriesDesc xs).head? with
    | none => simp
    | some y =>
      dsimp only
      split_ifs with h <;> rfl

lemma firstMaxEntry_mem :
    ∀ {l : List LedgerEntry} {e : LedgerEntry}, firstMaxEntry l = some e → e ∈ l := by
  intro l
  induction l with
  | nil => intro e h; cases h
  | cons x xs ih =>
    intro e h
    rw [firstMaxEntry] at h
    cases hm : firstMaxEntry xs with
    | none =>
      rw [hm] at h
      cases h
      simp
    | some y =>
      rw [hm] at h
      dsimp only at h
      split_ifs at h
      · cases h
        exact List.mem_cons_of_mem _ (ih hm)
      · cases h
        simp

end SortLemmas

section PipelineLemmas

variable {A : List Account} {am vm : List NameMap} {n : String}
variable {v : AGVoucher} {o : Voucher} {st : LegState}

lemma head?_mem {α : Type} {l : List α} {x : α} (h : l.head? = some x) :
    x ∈ l := by
  cases l with
  | nil => cases h
  | cons a as =>
    rw [List.head?_cons] at h
    cases h
    simp

lemma buildLegsFrom_partyLedgers_names :
    ∀ (ts : List Transaction) (st st' : LegState),
      buildLegsFrom A am n st ts = .ok st' →
      (∀ c ∈ st.partyLedgers, ∃ e, e ∈ st.ledgerEntries ∧
          c.ledger_name = e.ledger_name) →
      ∀ c ∈ st'.partyLedgers, ∃ e, e ∈ st'.ledgerEntries ∧
          c.ledger_name = e.ledger_name := by
  intro ts
  induction ts with
  | nil =>
    intro st st' h hinv
    cases h
    exact hinv
  | cons t ts ih =>
    intro st st' h hinv
    rw [buildLegsFrom] at h
    cases hr : resolveLeg A am t with
    | error e => rw [hr] at h; cases h
    | ok l =>
      rw [hr] at h
      refine ih _ _ h ?_
      intro c hc
      rw [applyUpdates_partyLedgers] at hc
      rw [applyUpdates_ledgerEntries]
      split_ifs at hc with hmem
      · rcases List.mem_append.mp hc with hold | hnew
        · obtain ⟨e, he, hne⟩ := hinv c hold
          exact ⟨e, List.mem_append_left _ he, hne⟩
        · rw [List.mem_singleton] at hnew
          subst hnew
          exact ⟨l, List.mem_append_right _ (List.mem_singleton_self l), rfl⟩
      · obtain ⟨e, he, hne⟩ := hinv c hc
        exact ⟨e, List.mem_append_left _ he, hne⟩

lemma processVoucher_eq (hn : getVoucherType v.voucherType vm = .ok n)
    (hb : buildLegsFrom A am n ⟨"", [], []⟩ v.trns = .ok st) :
    processVoucher A am vm v = finishVoucher v n st := by
  rw [processVoucher, hn]
  dsimp only
  rw [hb]

lemma processVoucher_ok_inv (hn : getVoucherType v.voucherType vm = .ok n)
    (h : processVoucher A am vm v = .ok o) :
    ∃ st, buildLegsFrom A am n ⟨"", [], []⟩ v.trns = .ok st ∧
      finishVoucher v n st = .ok o := by
  rw [processVoucher, hn] at h
  dsimp only at h
  cases hb : buildLegsFrom A am n ⟨"", [], []⟩ v.trns with
  | error e => rw [hb] at h; cases h
  | ok st => rw [hb] at h; exact ⟨st, rfl, h⟩

lemma finishVoucher_not_journal_not_sales
    (h1 : n ≠ "Journal") (h2 : n ∉ salesTypes) (v : AGVoucher) (st : LegState) :
    finishVoucher v n st =
      .ok { date := v.date
            ref_no := v.refNo
            ref_date := v.billDate
            voucher_type := n
            party_ledger := st.partyLedgerName
            voucher_no := v.voucherNo
            ledger_entries := sortEntriesDesc st.ledgerEntries } := by
  rw [finishVoucher, journalParty, if_neg h1]
  dsimp only
  rw [salesParty, if_neg h2]
  dsimp only
  simp [h1]

end PipelineLemmas

lemma mem_salesTypes_ne_journal {n : String} (h : n ∈ salesTypes) :
    n ≠ "Journal" := by
  simp only [salesTypes, List.mem_cons, List.not_mem_nil, or_false] at h
  rcases h with rfl | rfl | rfl | rfl <;> decide

section InversionLemmas

variable {A : List Account} {am vm : List NameMap} {n p2 p3 : String}
variable {v : AGVoucher} {o : Voucher} {st : LegState}

lemma processVoucher_ok_inv2 (h : processVoucher A am vm v = .ok o) :
    ∃ n st, getVoucherType v.voucherType vm = .ok n ∧
      buildLegsFrom A am n ⟨"", [], []⟩ v.trns = .ok st ∧
      finishVoucher v n st = .ok o := by
  rw [processVoucher] at h
  cases hg : getVoucherType v.voucherType vm with
  | error e => rw [hg] at h; cases h
  | ok n =>
    rw [hg] at h
    dsimp only at h
    cases hb : buildLegsFrom A am n ⟨"", [], []⟩ v.trns with
    | error e => rw [hb] at h; cases h
    | ok st => rw [hb] at h; exact ⟨n, st, rfl, hb, h⟩

lemma finishVoucher_entries (h : finishVoucher v n st = .ok o) :
    o.ledger_entries =
      if n ≠ "Journal" then sortEntriesDesc st.ledgerEntries
      else st.ledgerEntries := by
  rw [finishVoucher] at h
  cases h2 : journalParty n st with
  | error e => rw [h2] at h; cases h
  | ok p2 =>
    rw [h2] at h
    dsimp only at h
    cases h3 : salesParty n st p2 with
    | error e => rw [h3] at h; cases h
    | ok p3 =>
      rw [h3] at h
      dsimp only at h
      cases h
      rfl

lemma finishVoucher_ok_inv (h : finishVoucher v n st = .ok o) :
    ∃ p2, journalParty n st = .ok p2 ∧
      salesParty n st p2 = .ok o.party_ledger := by
  rw [finishVoucher] at h
  cases h2 : journalParty n st with
  | error e => rw [h2] at h; cases h
  | ok p2 =>
    rw [h2] at h
    dsimp only at h
    cases h3 : salesParty n st p2 with
    | error e => rw [h3] at h; cases h
    | ok p3 =>
      rw [h3] at h
      dsimp only at h
      cases h
      exact ⟨p2, rfl, h3⟩

lemma journalParty_ok (h : journalParty n st = .ok p2) :
    (n = "Journal" ∧ ∃ e, st.ledgerEntries.head? = some e ∧
        p2 = e.ledger_name) ∨
    (n ≠ "Journal" ∧ p2 = st.partyLedgerName) := by
  rw [journalParty] at h
  split_ifs at h with hj
  · cases hh : st.ledgerEntries.head? with
    | none => rw [hh] at h; cases h
    | some e => rw [hh] at h; cases h; exact .inl ⟨hj, e, rfl, rfl⟩
  · cases h; exact .inr ⟨hj, rfl⟩

lemma salesParty_ok (h : salesParty n st p2 = .ok p3) :
    (n ∈ salesTypes ∧ ∃ e, (sortEntriesDesc st.partyLedgers).head? = some e ∧
        p3 = e.ledger_name) ∨
    (n ∉ salesTypes ∧ p3 = p2) := by
  rw [salesParty] at h
  split_ifs at h with hmem
  · cases hh : (sortEntriesDesc st.partyLedgers).head? with
    | none => rw [hh] at h; cases h
    | some e => rw [hh] at h; cases h; exact .inl ⟨hmem, e, rfl, rfl⟩
  · cases h; exact .inr ⟨hmem, rfl⟩

lemma finishVoucher_journal {e : LedgerEntry}
    (hhead : st.ledgerEntries.head? = some e) :
    finishVoucher v "Journal" st =
      .ok { date := v.date
            ref_no := v.refNo
            ref_date := v.billDate
            voucher_type := "Journal"
            party_ledger := e.ledger_name
            voucher_no := v.voucherNo
            ledger_entries := st.ledgerEntries } := by
  rw [finishVoucher, journalParty, if_pos rfl, hhead]
  dsimp only
  rw [salesParty, if_neg (by decide : ¬("Journal" : String) ∈ salesTypes)]
  dsimp only
  simp

end InversionLemmas

section Fixtures

/-- A small concrete accounts directory used as a witness input. -/
def accountsD : List Account :=
  [⟨"a1", "Cash"⟩, ⟨"a2", "Sales Income"⟩, ⟨"a3", "Bank"⟩,
   ⟨"a4", "Supplier"⟩, ⟨"a5", "A"⟩, ⟨"a6", "B"⟩]

/-- Scenario 1 of the spec: a SALE voucher with a CASH leg of 118 and a
DIRECT_INCOME leg of -118. -/
def saleV : AGVoucher :=
  { date := "2022-04-01", billDate := none, refNo := none, narration := none,
    voucherType := "SALE", voucherNo := none,
    trns := [⟨"a1", 118, "CASH"⟩, ⟨"a2", -118, "DIRECT_INCOME"⟩],
    lut := none, rcm := none }

/-- Scenario 2 of the spec: a JOURNAL voucher with legs A(-50), B(50). -/
def journalV : AGVoucher :=
  { date := "2022-04-01", billDate := none, refNo := none, narration := none,
    voucherType := "JOURNAL", voucherNo := none,
    trns := [⟨"a5", -50, "INDIRECT_EXPENSE"⟩, ⟨"a6", 50, "DIRECT_INCOME"⟩],
    lut := none, rcm := none }

/-- Scenario 6 of the spec: a CONTRA voucher with two positive legs. -/
def contraV : AGVoucher :=
  { date := "2022-04-02", billDate := none, refNo := none, narration := none,
    voucherType := "CONTRA", voucherNo := none,
    trns := [⟨"a1", 50, "CASH"⟩, ⟨"a3", 50, "BANK_ACCOUNT"⟩],
    lut := none, rcm := none }

/-- A JOURNAL voucher with no legs at all. -/
def emptyJournalV : AGVoucher :=
  { date := "2022-04-03", billDate := none, refNo := none, narration := none,
    voucherType := "JOURNAL", voucherNo := none,
    trns := [], lut := none, rcm := none }

/-- A voucher whose voucher type code is outside the recognized set. -/
def bogusV : AGVoucher :=
  { date := "2022-04-01", billDate := none, refNo := none, narration := none,
    voucherType := "BOGUS", voucherNo := none,
    trns := [⟨"a1", 10, "CASH"⟩], lut := none, rcm := none }

/-- A voucher type alias table in which a first row maps Journal to itself
and a later row renames it; first match wins, so the rename is inert. -/
def dupJournalTbl : List NameMap :=
  [⟨"Journal", "Journal"⟩, ⟨"Journal", "Night"⟩]

/-- A voucher type alias table renaming Journal to a string outside the
rule set. -/
def nightTbl : List NameMap :=
  [⟨"Journal", "Night"⟩]

/-- A voucher type alias table renaming Journal to Jrnl. -/
def jrnlTbl : List NameMap :=
  [⟨"Journal", "Jrnl"⟩]

/-- The output the pipeline produces for saleV. -/
def saleOut : Voucher :=
  { date := "2022-04-01", ref_no := none, ref_date := none,
    voucher_type := "Sales", party_ledger := "Cash", voucher_no := none,
    ledger_entries := [⟨"Cash", "No", 118⟩, ⟨"Sales Income", "Yes", -118⟩] }

/-- The leg-loop state the pipeline reaches for saleV. -/
def saleSt : LegState :=
  ⟨"", [⟨"Cash", "No", 118⟩, ⟨"Sales Income", "Yes", -118⟩],
   [⟨"Cash", "No", 118⟩]⟩

/-- The output the pipeline produces for journalV. -/
def journalOut : Voucher :=
  { date := "2022-04-01", ref_no := none, ref_date := none,
    voucher_type := "Journal", party_ledger := "A", voucher_no := none,
    ledger_entries := [⟨"A", "Yes", -50⟩, ⟨"B", "No", 50⟩] }

/-- The output the pipeline produces for contraV. -/
def contraOut : Voucher :=
  { date := "2022-04-02", ref_no := none, ref_date := none,
    voucher_type := "Contra", party_ledger := "Bank", voucher_no := none,
    ledger_entries := [⟨"Cash", "No", 50⟩, ⟨"Bank", "No", 50⟩] }

/-- The output the pipeline produces for journalV under nightTbl. -/
def nightOut : Voucher :=
  { date := "2022-04-01", ref_no := none, ref_date := none,
    voucher_type := "Night", party_ledger := "", voucher_no := none,
    ledger_entries := [⟨"B", "No", 50⟩, ⟨"A", "Yes", -50⟩] }

end Fixtures

/-- C6: every ledger entry built from a name and an amount keeps the name
and the amount unchanged, its is_deemed_positive flag is the literal
string Yes when the amount is strictly negative and No otherwise (zero
included), so the flag equals Yes exactly when the amount is negative. -/
theorem ledgerEntry_new_spec (nm : String) (a : Int) :
    (LedgerEntry.new nm a).ledger_name = nm ∧
    (LedgerEntry.new nm a).amount = a ∧
    (LedgerEntry.new nm a).is_deemed_positive =
      (if a < 0 then "Yes" else "No") ∧
    ((LedgerEntry.new nm a).is_deemed_positive = "Yes" ↔ a < 0) := by
  refine ⟨rfl, rfl, rfl, ?_⟩
  rw [LedgerEntry.new]
  dsimp only
  split_ifs with h
  · exact ⟨fun _ => h, fun _ => rfl⟩
  · constructor
    · intro hy
      exact absurd hy (by decide)
    · intro ha
      exact absurd ha h

/-- C8: alias resolution never rewrites twice: if the resolved name of x
is not itself a source name of the table, resolving it again returns it
unchanged. -/
theorem resolveName_idempotent (m : List NameMap) (x : String)
    (h : ∀ r ∈ m, r.auditplus ≠ resolveName m x) :
    resolveName m (resolveName m x) = resolveName m x := by
  conv_lhs => rw [resolveName]
  cases hf : m.find? (fun r => r.auditplus == resolveName m x) with
  | none => rfl
  | some r =>
    have hp : r.auditplus = resolveName m x := by
      have := List.find?_some hf
      simpa using this
    exact absurd hp (h r (List.mem_of_find?_eq_some hf))

/-- Witness for C8 at a concrete table and name. -/
theorem resolveName_idempotent_witness :
    (∀ r ∈ jrnlTbl, r.auditplus ≠ resolveName jrnlTbl "Journal") ∧
    resolveName jrnlTbl (resolveName jrnlTbl "Journal") =
      resolveName jrnlTbl "Journal" :=
  ⟨by decide, resolveName_idempotent jrnlTbl "Journal" (by decide)⟩

/-- C10: the transformation of a voucher whose resolved type name is
Journal is partial in its legs: with an empty leg list the first-entry
access has no value and the program aborts (the .unwrap() panic, modelled
as the NoFirstEntry error) instead of producing a voucher. -/
theorem journal_empty_legs_partial (A : List Account) (am vm : List NameMap)
    (v : AGVoucher)
    (hn : getVoucherType v.voucherType vm = .ok "Journal")
    (hemp : v.trns = []) :
    processVoucher A am vm v = .error ExportError.NoFirstEntry := by
  have hb : buildLegsFrom A am "Journal" ⟨"", [], []⟩ v.trns =
      .ok ⟨"", [], []⟩ := by
    rw [hemp]
    rfl
  rw [processVoucher_eq hn hb]
  rfl

/-- Witness for C10 at a concrete legless JOURNAL voucher. -/
theorem journal_empty_legs_partial_witness :
    getVoucherType emptyJournalV.voucherType [] = .ok "Journal" ∧
    emptyJournalV.trns = [] ∧
    processVoucher accountsD [] [] emptyJournalV =
      .error ExportError.NoFirstEntry :=
  ⟨rfl, rfl, journal_empty_legs_partial accountsD [] [] emptyJournalV rfl rfl⟩

/-- C4: contrary to the claim (which states the intended per-voucher error
scoping), the code aborts the whole run on the first unknown voucher type
code: a run over a BOGUS-typed voucher followed by a perfectly valid SALE
voucher yields a single UnknownVoucherType failure and no output at all,
even though the second voucher alone succeeds; an unknown account type
code makes the ledger classifier of export_ledger.rs abort the same way. -/
theorem run_aborts_on_unknown_voucher_type :
    exportRun accountsD [] [] [bogusV, saleV] =
      .error ExportError.UnknownVoucherType ∧
    processVoucher accountsD [] [] saleV = .ok saleOut ∧
    getAccountType "BOGUS" [] = .error ExportError.UnknownAccountType :=
  ⟨rfl, rfl, rfl⟩

/-- C5: for a voucher whose resolved type name is Journal, the party
ledger name is the ledger name of the first entry of the pre-sort list,
that is the resolved account name of the first leg, regardless of its
amount or account type. -/
theorem journal_party_is_first_leg (A : List Account) (am vm : List NameMap)
    (v : AGVoucher) (o : Voucher) (t : Transaction) (ts : List Transaction)
    (e : LedgerEntry)
    (hn : getVoucherType v.voucherType vm = .ok "Journal")
    (htr : v.trns = t :: ts)
    (he : resolveLeg A am t = .ok e)
    (ho : processVoucher A am vm v = .ok o) :
    o.party_ledger = e.ledger_name := by
  obtain ⟨st, hb, hf⟩ := processVoucher_ok_inv hn ho
  obtain ⟨es, hes, hent⟩ := buildLegsFrom_entries v.trns _ _ hb
  rw [htr, mapME, he] at hes
  cases hes2 : mapME (resolveLeg A am) ts with
  | error er => rw [hes2] at hes; cases hes
  | ok es' =>
    rw [hes2] at hes
    cases hes
    have hh : st.ledgerEntries.head? = some e := by
      rw [hent]
      rfl
    rw [finishVoucher_journal hh] at hf
    cases hf
    rfl

/-- Witness for C5 at the concrete JOURNAL voucher of the spec. -/
theorem journal_party_is_first_leg_witness :
    getVoucherType journalV.voucherType [] = .ok "Journal" ∧
    resolveLeg accountsD [] ⟨"a5", -50, "INDIRECT_EXPENSE"⟩ =
      .ok ⟨"A", "Yes", -50⟩ ∧
    processVoucher accountsD [] [] journalV = .ok journalOut ∧
    journalOut.party_ledger = LedgerEntry.ledger_name ⟨"A", "Yes", -50⟩ :=
  ⟨rfl, rfl, rfl,
   journal_party_is_first_leg accountsD [] [] journalV journalOut
     ⟨"a5", -50, "INDIRECT_EXPENSE"⟩ [⟨"a6", 50, "DIRECT_INCOME"⟩]
     ⟨"A", "Yes", -50⟩ rfl rfl rfl rfl⟩

/-- C2: for resolved type names Contra and Receipt the party ledger name
is the resolved account name of the last leg in leg order whose amount is
strictly positive (and stays empty when no leg qualifies); for Payment it
is the resolved account name of the last leg whose amount is strictly
negative, each later qualifying leg overwriting any earlier selection. -/
theorem party_last_match_wins (A : List Account) (am vm : List NameMap)
    (v : AGVoucher) (o : Voucher) (n : String)
    (hn : getVoucherType v.voucherType vm = .ok n)
    (ho : processVoucher A am vm v = .ok o) :
    ((n = "Contra" ∨ n = "Receipt") →
      (v.trns.filter (fun t => decide (0 < t.amount)) = [] →
        o.party_ledger = "") ∧
      (∀ t, (v.trns.filter (fun t => decide (0 < t.amount))).getLast? = some t →
        ∃ e, resolveLeg A am t = .ok e ∧ o.party_ledger = e.ledger_name)) ∧
    (n = "Payment" →
      (v.trns.filter (fun t => decide (t.amount < 0)) = [] →
        o.party_ledger = "") ∧
      (∀ t, (v.trns.filter (fun t => decide (t.amount < 0))).getLast? = some t →
        ∃ e, resolveLeg A am t = .ok e ∧ o.party_ledger = e.ledger_name)) := by
  obtain ⟨st, hb, hf⟩ := processVoucher_ok_inv hn ho
  constructor
  · intro hcr
    have hnj : n ≠ "Journal" := by rcases hcr with rfl | rfl <;> decide
    have hns : n ∉ salesTypes := by rcases hcr with rfl | rfl <;> decide
    rw [finishVoucher_not_journal_not_sales hnj hns] at hf
    cases hf
    obtain ⟨h1, h2⟩ := buildLegsFrom_party_CR hcr v.trns _ _ hb
    exact ⟨fun hfil => h1 hfil, h2⟩
  · intro hp
    subst hp
    have hnj : ("Payment" : String) ≠ "Journal" := by decide
    have hns : ("Payment" : String) ∉ salesTypes := by decide
    rw [finishVoucher_not_journal_not_sales hnj hns] at hf
    cases hf
    obtain ⟨h1, h2⟩ := buildLegsFrom_party_Payment v.trns _ _ hb
    exact ⟨fun hfil => h1 hfil, h2⟩

/-- Witness for C2 at the CONTRA voucher with two positive legs: the later
leg wins. -/
theorem party_last_match_wins_witness :
    getVoucherType contraV.voucherType [] = .ok "Contra" ∧
    processVoucher accountsD [] [] contraV = .ok contraOut ∧
    (contraV.trns.filter (fun t => decide (0 < t.amount))).getLast? =
      some ⟨"a3", 50, "BANK_ACCOUNT"⟩ ∧
    ∃ e, resolveLeg accountsD [] ⟨"a3", 50, "BANK_ACCOUNT"⟩ = .ok e ∧
      contraOut.party_ledger = e.ledger_name :=
  ⟨rfl, rfl, rfl,
   ((party_last_match_wins accountsD [] [] contraV contraOut "Contra"
       rfl rfl).1 (Or.inl rfl)).2 ⟨"a3", 50, "BANK_ACCOUNT"⟩ rfl⟩

/-- C9 counterexample: the claim quantifies over every alias table merely
containing a row that renames a canonical name, but resolution takes the
first matching row, so a table whose first Journal row is the identity and
whose second renames Journal leaves the resolved name Journal: the Journal
party rule still fires (the party is the first leg) and the entries keep
leg order unsorted, against the claimed behavior. -/
theorem rules_keyed_literal_cex :
    (∃ r ∈ dupJournalTbl, r.auditplus = "Journal" ∧ r.tally ≠ "Journal") ∧
    processVoucher accountsD [] dupJournalTbl journalV = .ok journalOut ∧
    journalOut.party_ledger = "A" ∧
    ¬ journalOut.ledger_entries.Pairwise (fun a b => b.amount ≤ a.amount) := by
  refine ⟨?_, rfl, rfl, ?_⟩
  · refine ⟨⟨"Journal", "Night"⟩, by decide, rfl, by decide⟩
  · intro hp
    rw [journalOut] at hp
    dsimp only at hp
    rw [List.pairwise_cons] at hp
    have := hp.1 ⟨"B", "No", 50⟩ (by simp)
    dsimp only at this
    omega

/-- C9 (amended): the party rules and the sorting exception are keyed on
the alias-resolved voucher type name: whenever the resolved name lies
outside the rule set (Contra, Receipt, Payment, Journal, Sales, Purchase,
Credit Note, Debit Note), no party rule fires (the party ledger name stays
empty) and the ledger entries are sorted by amount descending instead of
keeping leg order. -/
theorem rules_keyed_on_resolved_name (A : List Account) (am vm : List NameMap)
    (v : AGVoucher) (o : Voucher) (n : String)
    (hn : getVoucherType v.voucherType vm = .ok n)
    (hrn : n ∉ ruleNames)
    (ho : processVoucher A am vm v = .ok o) :
    o.party_ledger = "" ∧
    o.ledger_entries.Pairwise (fun a b => b.amount ≤ a.amount) := by
  obtain ⟨st, hb, hf⟩ := processVoucher_ok_inv hn ho
  have hcr : ¬(n = "Contra" ∨ n = "Receipt") := by
    rintro (rfl | rfl) <;> exact hrn (by decide)
  have hpay : n ≠ "Payment" := by
    rintro rfl
    exact hrn (by decide)
  have hnj : n ≠ "Journal" := by
    rintro rfl
    exact hrn (by decide)
  have hns : n ∉ salesTypes := by
    intro hmem
    apply hrn
    simp only [salesTypes, List.mem_cons, List.not_mem_nil, or_false] at hmem
    rcases hmem with rfl | rfl | rfl | rfl <;> decide
  rw [finishVoucher_not_journal_not_sales hnj hns] at hf
  cases hf
  exact ⟨buildLegsFrom_party_other hcr hpay v.trns _ _ hb,
         pairwise_sortEntriesDesc st.ledgerEntries⟩

/-- Witness for the amended C9: Journal renamed to Night, a name outside
the rule set, leaves the party empty and the entries sorted. -/
theorem rules_keyed_on_resolved_name_witness :
    getVoucherType journalV.voucherType nightTbl = .ok "Night" ∧
    "Night" ∉ ruleNames ∧
    processVoucher accountsD [] nightTbl journalV = .ok nightOut ∧
    (nightOut.party_ledger = "" ∧
      nightOut.ledger_entries.Pairwise (fun a b => b.amount ≤ a.amount)) :=
  ⟨rfl, by decide, rfl,
   rules_keyed_on_resolved_name accountsD [] nightTbl journalV nightOut
     "Night" rfl (by decide) rfl⟩

/-- C3: for every output voucher whose resolved type name is not Journal,
the ledger entries are sorted by amount descending and, for every amount,
the entries carrying that amount appear in exactly their original leg
order (stability); a Journal voucher keeps the original leg order
unsorted. -/
theorem entries_sorted_except_journal (A : List Account) (am vm : List NameMap)
    (v : AGVoucher) (o : Voucher) (n : String) (es : List LedgerEntry)
    (hn : getVoucherType v.voucherType vm = .ok n)
    (hes : mapME (resolveLeg A am) v.trns = .ok es)
    (ho : processVoucher A am vm v = .ok o) :
    (n ≠ "Journal" →
      o.ledger_entries.Pairwise (fun a b => b.amount ≤ a.amount) ∧
      ∀ a : Int, o.ledger_entries.filter (fun x => x.amount == a) =
        es.filter (fun x => x.amount == a)) ∧
    (n = "Journal" → o.ledger_entries = es) := by
  obtain ⟨st, hb, hf⟩ := processVoucher_ok_inv hn ho
  obtain ⟨es', hes', hent⟩ := buildLegsFrom_entries v.trns _ _ hb
  rw [hes] at hes'
  cases hes'
  have hentries : st.ledgerEntries = es := by simpa using hent
  have he2 := finishVoucher_entries hf
  constructor
  · intro hnj
    rw [if_pos hnj, hentries] at he2
    rw [he2]
    exact ⟨pairwise_sortEntriesDesc es, fun a => filter_sortEntriesDesc es a⟩
  · intro hj
    rw [if_neg (by simp [hj]), hentries] at he2
    exact he2

/-- Witness for C3 at the SALE voucher of the spec. -/
theorem entries_sorted_except_journal_witness :
    getVoucherType saleV.voucherType [] = .ok "Sales" ∧
    mapME (resolveLeg accountsD []) saleV.trns =
      .ok [⟨"Cash", "No", 118⟩, ⟨"Sales Income", "Yes", -118⟩] ∧
    processVoucher accountsD [] [] saleV = .ok saleOut ∧
    (saleOut.ledger_entries.Pairwise (fun a b => b.amount ≤ a.amount) ∧
      saleOut.ledger_entries.filter (fun x => x.amount == (118 : Int)) =
        [(⟨"Cash", "No", 118⟩ : LedgerEntry),
         ⟨"Sales Income", "Yes", -118⟩].filter
          (fun x => x.amount == (118 : Int))) :=
  ⟨rfl, rfl, rfl,
   ((entries_sorted_except_journal accountsD [] [] saleV saleOut "Sales"
       [⟨"Cash", "No", 118⟩, ⟨"Sales Income", "Yes", -118⟩]
       rfl rfl rfl).1 (by decide)).1,
   ((entries_sorted_except_journal accountsD [] [] saleV saleOut "Sales"
       [⟨"Cash", "No", 118⟩, ⟨"Sales Income", "Yes", -118⟩]
       rfl rfl rfl).1 (by decide)).2 118⟩

/-- C7: the party ledger name of every output voucher is either empty or
one of the ledger names among that same voucher's ledger entries. -/
theorem party_ledger_mem_entries (A : List Account) (am vm : List NameMap)
    (v : AGVoucher) (o : Voucher)
    (ho : processVoucher A am vm v = .ok o) :
    o.party_ledger = "" ∨
      o.party_ledger ∈ o.ledger_entries.map (fun e => e.ledger_name) := by
  obtain ⟨n, st, hg, hb, hf⟩ := processVoucher_ok_inv2 ho
  have hent := finishVoucher_entries hf
  obtain ⟨p2, hjp, hsp⟩ := finishVoucher_ok_inv hf
  rcases salesParty_ok hsp with ⟨hmem, e, hh, hp⟩ | ⟨hnmem, hp⟩
  · have hnj : n ≠ "Journal" := mem_salesTypes_ne_journal hmem
    have he1 : e ∈ st.partyLedgers := mem_sortEntriesDesc.mp (head?_mem hh)
    have hinv := buildLegsFrom_partyLedgers_names v.trns _ _ hb
      (fun c hc => absurd hc (by simp))
    obtain ⟨e2, he2, hne⟩ := hinv e he1
    right
    rw [hent, if_pos hnj, hp, hne]
    exact List.mem_map_of_mem _ (mem_sortEntriesDesc.mpr he2)
  · rcases journalParty_ok hjp with ⟨hj, e, hh, hp2⟩ | ⟨hnj, hp2⟩
    · right
      rw [hent, if_neg (by simp [hj]), hp, hp2]
      exact List.mem_map_of_mem _ (head?_mem hh)
    · rcases buildLegsFrom_party_mem v.trns _ _ hb with hempty | ⟨e, he, hname⟩
      · left
        rw [hp, hp2]
        exact hempty
      · right
        rw [hent, if_pos hnj, hp, hp2, hname]
        exact List.mem_map_of_mem _ (mem_sortEntriesDesc.mpr he)

/-- Witness for C7 at the SALE voucher. -/
theorem party_ledger_mem_entries_witness :
    processVoucher accountsD [] [] saleV = .ok saleOut ∧
    (saleOut.party_ledger = "" ∨
      saleOut.party_ledger ∈
        saleOut.ledger_entries.map (fun e => e.ledger_name)) :=
  ⟨rfl, party_ledger_mem_entries accountsD [] [] saleV saleOut rfl⟩

/-- C1: for a voucher whose resolved type name is in the Sales family, the
candidate list built by the loop is exactly the legs whose account type
code is in the candidate set, resolved to entries with absolute amounts;
when it is empty the transformation fails with NoPartyCandidate, and
otherwise the party ledger name is that of the first candidate attaining
the maximal absolute amount, which is the head of the stable descending
sort (ties keep leg order). -/
theorem sales_party_rule (A : List Account) (am vm : List NameMap)
    (v : AGVoucher) (n : String) (st : LegState)
    (hn : getVoucherType v.voucherType vm = .ok n)
    (hs : n ∈ salesTypes)
    (hb : buildLegsFrom A am n ⟨"", [], []⟩ v.trns = .ok st) :
    candidatesOf A am v.trns = .ok st.partyLedgers ∧
    (st.partyLedgers = [] →
      processVoucher A am vm v = .error ExportError.NoPartyCandidate) ∧
    (∀ e, firstMaxEntry st.partyLedgers = some e →
      ∃ o, processVoucher A am vm v = .ok o ∧
        o.party_ledger = e.ledger_name) := by
  have hpe := processVoucher_eq hn hb
  have hnj : n ≠ "Journal" := mem_salesTypes_ne_journal hs
  refine ⟨?_, ?_, ?_⟩
  · obtain ⟨cs, hcs, hpl⟩ := buildLegsFrom_candidates v.trns _ _ hb
    rw [hcs, hpl]
    rfl
  · intro hemp
    rw [hpe, finishVoucher, journalParty, if_neg hnj]
    dsimp only
    rw [salesParty, if_pos hs, hemp]
    rfl
  · intro e he
    rw [hpe, finishVoucher, journalParty, if_neg hnj]
    dsimp only
    rw [salesParty, if_pos hs]
    rw [← head?_sortEntriesDesc] at he
    rw [he]
    dsimp only
    exact ⟨_, rfl, rfl⟩

/-- Witness for C1 at the SALE voucher of the spec: the only candidate is
the CASH leg and it becomes the party. -/
theorem sales_party_rule_witness :
    getVoucherType saleV.voucherType [] = .ok "Sales" ∧
    "Sales" ∈ salesTypes ∧
    buildLegsFrom accountsD [] "Sales" ⟨"", [], []⟩ saleV.trns = .ok saleSt ∧
    candidatesOf accountsD [] saleV.trns = .ok saleSt.partyLedgers ∧
    firstMaxEntry saleSt.partyLedgers = some ⟨"Cash", "No", 118⟩ ∧
    ∃ o, processVoucher accountsD [] [] saleV = .ok o ∧
      o.party_ledger = LedgerEntry.ledger_name ⟨"Cash", "No", 118⟩ :=
  ⟨rfl, by decide, rfl,
   (sales_party_rule accountsD [] [] saleV "Sales" saleSt rfl
     (by decide) rfl).1,
   rfl,
   (sales_party_rule accountsD [] [] saleV "Sales" saleSt rfl
     (by decide) rfl).2.2 ⟨"Cash", "No", 118⟩ rfl⟩

end TallyExport
